import Mathlib

/-!
Verification development for `torch_bfn/networks.py` (Bayesian Flow Network
neural networks).  The source file is shallowly embedded: tensors become
lists of rationals (per-batch-element rows), shape-level reasoning for the
U-Net uses explicit `(channels, height, width)` triples, stateful pieces
(random number generation, the skip stack) are threaded explicitly, and
transcendental operations of the source (sqrt, sin, cos, silu, gelu and the
constant 2*pi) are abstracted as function parameters since the embedding
works over the rationals.
-/

namespace TorchBFN

/-! ### Basic tensor operations -/

abbrev Vec := List ℚ
abbrev Mat := List (List ℚ)

/-- Dot product of two feature vectors. -/
def dot (a b : Vec) : ℚ := (List.zipWith (· * ·) a b).sum

/-- Elementwise addition of two feature vectors (torch `+`). -/
def vadd (a b : Vec) : Vec := List.zipWith (· + ·) a b

/-- Mean over a vector of values (`t.mean` over the flattened non-batch axes). -/
def tmean (v : Vec) : ℚ := v.sum / (v.length : ℚ)

/-- Unbiased sample variance: `torch.std` uses the Bessel correction
(divisor `n - 1`) by default. -/
def tvar (v : Vec) : ℚ := ((v.map (fun x => (x - tmean v) ^ 2)).sum) / ((v.length : ℚ) - 1)

/-- Standard deviation of a flattened per-sample vector.  The square root is
abstracted as `sq` because the embedding works over `ℚ`. -/
def tstd (sq : ℚ → ℚ) (v : Vec) : ℚ := sq (tvar v)

/-! ### `BFNetwork.forward_with_cond_scale` (networks.py lines 77-103)

`fwd p` stands for `self.forward(*args, cond_drop_prob=p, **kwargs)` with all
the remaining arguments fixed: the method only ever varies the conditioning
dropout probability between its two calls. -/

def forward_with_cond_scale (sq : ℚ → ℚ) (fwd : ℚ → Mat)
    (cond_scale rescaled_phi : ℚ) : Mat :=
  let logits := fwd 0
  if cond_scale = 1 then logits
  else
    let null_logits := fwd 1
    let scaled_logits :=
      List.zipWith (fun nr lr => List.zipWith (fun n l => n + (l - n) * cond_scale) nr lr)
        null_logits logits
    if rescaled_phi = 0 then scaled_logits
    else
      let rescaled_logits :=
        List.zipWith (fun lr sr => sr.map (fun s => s * (tstd sq lr / tstd sq sr)))
          logits scaled_logits
      List.zipWith
        (fun rr sr => List.zipWith (fun r s => r * rescaled_phi + s * (1 - rescaled_phi)) rr sr)
        rescaled_logits scaled_logits

/-! Spec-side definitions for the guidance combination, following the words of
spec section 4.6 (steps 4-6); used to compare the code path against the spec. -/

/-- Spec step 4: `scaled = logitsUncond + (logitsCond - logitsUncond) * guidanceScale`,
where `logitsCond = fwd 0` and `logitsUncond = fwd 1`. -/
def guidanceSpecScaled (fwd : ℚ → Mat) (guidanceScale : ℚ) : Mat :=
  List.zipWith (fun ur cr => List.zipWith (fun u c => u + (c - u) * guidanceScale) ur cr)
    (fwd 1) (fwd 0)

/-- Spec step 6 (first half): rescale `scaled` per sample by the quotient of the
standard deviation of `logitsCond` and that of `scaled`. -/
def guidanceSpecRescaled (sq : ℚ → ℚ) (fwd : ℚ → Mat) (guidanceScale : ℚ) : Mat :=
  List.zipWith (fun cr sr => sr.map (fun s => s * (tstd sq cr / tstd sq sr)))
    (fwd 0) (guidanceSpecScaled fwd guidanceScale)

/-- Spec step 6 (second half): blend rescaled and unscaled versions by `rescaledPhi`. -/
def guidanceSpecBlend (sq : ℚ → ℚ) (fwd : ℚ → Mat) (guidanceScale rescaledPhi : ℚ) : Mat :=
  List.zipWith
    (fun rr sr => List.zipWith (fun r s => r * rescaledPhi + s * (1 - rescaledPhi)) rr sr)
    (guidanceSpecRescaled sq fwd guidanceScale) (guidanceSpecScaled fwd guidanceScale)

/-! ### `Attend.__init__` (networks.py lines 485-513) and `Attend.forward` dispatch -/

/-- `packaging.version` triple for the torch version. -/
structure TorchVersion where
  major : Nat
  minor : Nat
  patch : Nat
deriving DecidableEq

/-- Lexicographic comparison of version triples (`version.parse` ordering). -/
def TorchVersion.lt (a b : TorchVersion) : Bool :=
  a.major < b.major ∨ (a.major = b.major ∧
    (a.minor < b.minor ∨ (a.minor = b.minor ∧ a.patch < b.patch)))

/-- `AttentionConfig` namedtuple. -/
structure AttentionConfig where
  enable_flash : Bool
  enable_math : Bool
  enable_mem_efficient : Bool
deriving DecidableEq

/-- Construction-time error: the `assert` in `Attend.__init__` rejecting flash
attention on torch < 2.0.0. -/
inductive ConfigErr
  | flashNeedsTorch2
deriving DecidableEq

/-- The state an `Attend` module holds after a successful construction. -/
structure AttendState where
  dropout : ℚ
  flash : Bool
  cpu_config : AttentionConfig
  cuda_config : Option AttentionConfig
deriving DecidableEq

/-- The cuda config chosen at construction time (lines 497-513): `None` unless
cuda is available and flash was requested; A100 (capability 8.0) selects the
flash-only kernel set, anything else math/mem-efficient. -/
def cudaSelect (flash cudaAvailable : Bool) (devMajor devMinor : Nat) :
    Option AttentionConfig :=
  if ¬cudaAvailable ∨ ¬flash then none
  else if devMajor = 8 ∧ devMinor = 0 then some ⟨true, false, false⟩
  else some ⟨false, true, true⟩

/-- `Attend.__init__`: fails (assert) when flash is requested on torch < 2.0.0,
otherwise records the immutable kernel-selection state. -/
def Attend.init (dropout : ℚ) (flash : Bool) (torchVer : TorchVersion)
    (cudaAvailable : Bool) (devMajor devMinor : Nat) : Except ConfigErr AttendState :=
  if flash ∧ TorchVersion.lt torchVer ⟨2, 0, 0⟩ then .error .flashNeedsTorch2
  else
    .ok { dropout := dropout
          flash := flash
          cpu_config := ⟨true, true, true⟩
          cuda_config := cudaSelect flash cudaAvailable devMajor devMinor }

/-- `Attend.forward` dispatch (line 533): the fused path is taken exactly when
the `flash` field fixed at construction is set; no capability is re-checked. -/
def Attend.usesFlashPath (st : AttendState) : Bool := st.flash

/-! ### `Block.__init__` (networks.py lines 404-413): group-count fallback -/

/-- The group count actually handed to `nn.GroupNorm`:
`groups = 1 if out_dim % groups != 0 else groups` (line 410). -/
def Block.groupsUsed (out_dim groups : Nat) : Nat :=
  if out_dim % groups ≠ 0 then 1 else groups

/-! ### Errors, random streams, label tensors -/

/-- Runtime error conditions raised by the forward methods.
`shapeMismatch` is the `ValueError` for a badly shaped label tensor
(carrying the expected and the received shape, as the message
`Class shape should be ({batch},), not {cond.shape}` does);
`dimensionMismatch` is the `assert` on the U-Net input spatial dimensions;
the remaining constructors are torch runtime failures inside the layer
pipeline (channel mismatch of a convolution, spatial mismatch of `t.cat`
or the downsampling rearrange) and popping from an exhausted skip stack. -/
inductive UErr
  | shapeMismatch (expected got : List Nat)
  | dimensionMismatch
  | channelMismatch
  | spatialMismatch
  | stackUnderflow
deriving DecidableEq

/-- A label tensor: its shape and its flattened integer entries. -/
structure LabelTensor where
  shape : List Nat
  flat : List Nat
deriving DecidableEq

/-- Random source: a stream of uniform draws in `[0, 1)` (for `t.rand` and
dropout masks) and a stream of integers (for `t.randint`).  Draws are taken
from the front; exhausted streams yield `0` (theorems that depend on the
range of `t.rand` hypothesise nonnegativity of the listed draws, which the
default `0` also satisfies). -/
structure Rng where
  unifs : List ℚ
  ints : List Nat
deriving DecidableEq

/-- Draw `n` uniform values (one `t.rand((n,))` call). -/
def Rng.takeUnifs (r : Rng) (n : Nat) : List ℚ × Rng :=
  ((List.range n).map (fun i => r.unifs.getD i 0), ⟨r.unifs.drop n, r.ints⟩)

/-- Draw `n` integers below `k` (one `t.randint(0, k, (n,))` call). -/
def Rng.takeInts (r : Rng) (n k : Nat) : List Nat × Rng :=
  ((List.range n).map (fun i => r.ints.getD i 0 % k), ⟨r.unifs, r.ints.drop n⟩)

/-! ### The conditioning path shared by `LinearNetwork.forward` (lines 293-320)
and `Unet.forward` (lines 792-821); the two code blocks are line-for-line
identical up to attribute names. -/

/-- A linear (affine) layer: weight rows and bias. -/
structure LinearP where
  weight : Mat
  bias : Vec
deriving DecidableEq

/-- `nn.Linear` application: one output per weight row. -/
def LinearP.apply (l : LinearP) (x : Vec) : Vec :=
  List.zipWith (fun row b => dot row x + b) l.weight l.bias

/-- Abstracted scalar functions of the source that are transcendental over `ℚ`:
activations, sqrt, sine/cosine and the constant `2 * pi`. -/
structure Acts where
  silu : ℚ → ℚ
  gelu : ℚ → ℚ
  sqrtQ : ℚ → ℚ
  sinQ : ℚ → ℚ
  cosQ : ℚ → ℚ
  twoPi : ℚ

/-- Parameters of the class-conditioning machinery of a conditional network:
the class-embedding table (`nn.Embedding`), the learned null-class embedding,
the default conditioning-dropout probability and the two affine layers of the
conditioning MLP (`Linear`, `GELU`, `Linear`). -/
structure CondP where
  cond_dim : Nat
  cond_drop_prob : ℚ
  emb : Mat
  null_classes_emb : Vec
  mlp1 : LinearP
  mlp2 : LinearP
deriving DecidableEq

/-- The conditioning MLP (`cond_mlp` / `classes_mlp`). -/
def condMlp (acts : Acts) (cp : CondP) (v : Vec) : Vec :=
  cp.mlp2.apply ((cp.mlp1.apply v).map acts.gelu)

/-- Events recorded by the embedded `Unet.forward`, at the granularity of
completed phases; used to settle ordering claims (what runs before the
divisibility assert). -/
inductive UEvent
  | classEmbLookup
  | classesMlp
  | initConv
  | timeEmbed
  | encoderPass
  | midPass
  | decoderPass
  | finalPass
deriving DecidableEq

/-- The keep mask `t.rand((batch,)) < (1 - cond_drop_prob)` (lines 311-313). -/
def keepMask (rng : Rng) (batch : Nat) (p : ℚ) : List Bool :=
  ((rng.takeUnifs batch).1).map (fun u => decide (u < 1 - p))

/-- Conditioning handling shared by both forward methods.  Returns the
recorded events together with either an error or the per-sample conditioning
vectors (`None` for an unconditional network) and the advanced random state.

Mirrors the source order: when the network is conditional and no labels are
supplied, random labels are synthesised and full dropout forced; a trailing
singleton label dimension is squeezed away, any other rank > 1 raises; the
effective dropout probability is the caller override, else the configured
default; a positive probability samples a per-sample keep mask substituting
the null embedding; finally the conditioning MLP is applied. -/
def condHandle (cp? : Option CondP) (acts : Acts) (rng : Rng) (batch : Nat)
    (cond : Option LabelTensor) (cond_drop_prob : Option ℚ) :
    List UEvent × Except UErr (Option Mat × Rng) :=
  match cp? with
  | none => ([], .ok (none, rng))
  | some cp =>
    -- synthesise labels when absent, forcing full dropout (lines 294-296)
    let synth : LabelTensor × Option ℚ × Rng :=
      match cond with
      | none =>
        let (ls, rng') := rng.takeInts batch cp.cond_dim
        (⟨[batch], ls⟩, some 1, rng')
      | some c => (c, cond_drop_prob, rng)
    let c := synth.1
    let cdp? := synth.2.1
    let rng := synth.2.2
    -- recover from a label tensor of shape [B, 1]; reject other ranks > 1
    if c.shape.length > 1 ∧ ¬(c.shape.length = 2 ∧ c.shape.getLastD 0 = 1) then
      ([], .error (.shapeMismatch [batch] c.shape))
    else
      let labels := c.flat
      let cdp := cdp?.getD cp.cond_drop_prob
      -- class embedding lookup (line 308)
      let embs := labels.map (fun i => cp.emb.getD i [])
      -- conditioning dropout (lines 310-317)
      let masked : Mat × Rng :=
        if 0 < cdp then
          let mask := keepMask rng batch cdp
          let rng' : Rng := ⟨rng.unifs.drop batch, rng.ints⟩
          (List.zipWith (fun k e => if k then e else cp.null_classes_emb) mask embs, rng')
        else (embs, rng)
      ([.classEmbLookup, .classesMlp],
        .ok (some ((masked.1).map (condMlp acts cp)), masked.2))

/-! ### `LinearNetwork` (networks.py lines 216-326), value level -/

/-- `nn.LayerNorm` epsilon. -/
def lnEps : ℚ := 1 / 100000

/-- `nn.LayerNorm` with learned gain and bias: biased variance over the
feature axis, normalisation, then the elementwise affine. -/
structure LayerNormP where
  gamma : Vec
  beta : Vec
deriving DecidableEq

def layerNorm (acts : Acts) (ln : LayerNormP) (x : Vec) : Vec :=
  let mu := tmean x
  let varB := (x.map (fun xi => (xi - mu) ^ 2)).sum / (x.length : ℚ)
  List.zipWith (fun gb xi => ((xi - mu) / acts.sqrtQ (varB + lnEps)) * gb.1 + gb.2)
    (ln.gamma.zip ln.beta) x

/-- `nn.Dropout` in training mode: each element is zeroed with probability `p`
and the kept ones are scaled by `1 / (1 - p)`; `F.dropout` short-circuits
(drawing no randomness) when `p == 0`. -/
def dropoutV (p : ℚ) (rng : Rng) (x : Vec) : Vec × Rng :=
  if p = 0 then (x, rng)
  else
    let (us, rng') := rng.takeUnifs x.length
    (List.zipWith (fun u xi => if u < p then 0 else xi / (1 - p)) us x, rng')

/-- `LinearBlock` (lines 158-176): proj, norm, optional FiLM modulation,
SiLU, dropout. -/
structure LinBlockP where
  proj : LinearP
  norm : LayerNormP
  dropout_p : ℚ
deriving DecidableEq

def linBlockApply (acts : Acts) (bp : LinBlockP) (rng : Rng) (x : Vec)
    (scale_shift : Option (Vec × Vec)) : Vec × Rng :=
  let x1 := bp.proj.apply x
  let x2 := layerNorm acts bp.norm x1
  let x3 :=
    match scale_shift with
    | none => x2
    | some (sc, sh) => List.zipWith (fun xi (p : ℚ × ℚ) => xi * (p.1 + 1) + p.2) x2 (sc.zip sh)
  let x4 := x3.map acts.silu
  dropoutV bp.dropout_p rng x4

/-- `LinearResnetBlock` (lines 179-213): the FiLM MLP (`SiLU` then `Linear`),
two `LinearBlock`s and the residual projection (`Identity` when the widths
agree, encoded as `none`). -/
structure LinResP where
  mlp : LinearP
  block1 : LinBlockP
  block2 : LinBlockP
  res_proj : Option LinearP
deriving DecidableEq

def linResApply (acts : Acts) (rp : LinResP) (rng : Rng) (x : Vec)
    (time_emb cond_emb : Option Vec) : Vec × Rng :=
  let scale_shift : Option (Vec × Vec) :=
    if time_emb.isSome ∨ cond_emb.isSome then
      let emb := time_emb.getD [] ++ cond_emb.getD []
      let e := rp.mlp.apply (emb.map acts.silu)
      some (e.take ((e.length + 1) / 2), e.drop ((e.length + 1) / 2))
    else none
  let h1 := linBlockApply acts rp.block1 rng x scale_shift
  let h2 := linBlockApply acts rp.block2 h1.2 h1.1 none
  (vadd h2.1 (match rp.res_proj with | none => x | some l => l.apply x), h2.2)

/-- Parameters of a `LinearNetwork`: the sinusoidal time-embedding weights and
the two affine layers of `time_mlp`, the optional conditioning machinery, the
resnet blocks and the final projection.  `dim` and `hidden_dims` record the
constructor arguments the module shapes were built from. -/
structure LinParams where
  dim : Nat
  hidden_dims : List Nat
  sin_weights : Vec
  time1 : LinearP
  time2 : LinearP
  cond : Option CondP
  blocks : List LinResP
  final_proj : LinearP
deriving DecidableEq

/-- `RandomOrLearnedSinusoidalPosEmb.forward` for one scalar (lines 151-155):
`freqs = x * weights * 2 * pi`, then `cat(x, sin freqs, cos freqs)`. -/
def posEmbRL (acts : Acts) (w : Vec) (s : ℚ) : Vec :=
  let freqs := w.map (fun wi => s * wi * acts.twoPi)
  s :: (freqs.map acts.sinQ ++ freqs.map acts.cosQ)

/-- `time_mlp` applied to one time scalar (lines 244-249). -/
def timeEmbOf (acts : Acts) (p : LinParams) (s : ℚ) : Vec :=
  p.time2.apply ((p.time1.apply (posEmbRL acts p.sin_weights s)).map acts.gelu)

/-- Zip the data rows with their per-sample time embedding and (when present)
conditioning vector, as the batched block computation consumes them. -/
def rows3 (xs tE : Mat) (c : Option Mat) : List (Vec × Vec × Option Vec) :=
  match c with
  | none => (xs.zip tE).map (fun p => (p.1, p.2, none))
  | some cm => (xs.zip (tE.zip cm)).map (fun p => (p.1, p.2.1, some p.2.2))

/-- Apply one resnet block to every batch row, threading the random state. -/
def blockRows (acts : Acts) (rp : LinResP) :
    List (Vec × Vec × Option Vec) → Rng → Mat × Rng
  | [], rng => ([], rng)
  | (x, tE, cE) :: rest, rng =>
    let y := linResApply acts rp rng x tE cE
    let ys := blockRows acts rp rest y.2
    (y.1 :: ys.1, ys.2)

/-- Fold the whole block stack over the batch (the `for block in self.blocks`
loop of line 323). -/
def foldBlocks (acts : Acts) : List LinResP → Mat → Mat → Option Mat → Rng → Mat × Rng
  | [], xs, _, _, rng => (xs, rng)
  | rp :: rps, xs, tE, c, rng =>
    let step := blockRows acts rp (rows3 xs tE c) rng
    foldBlocks acts rps step.1 tE c step.2

/-- `LinearNetwork.forward` (lines 278-326): time embedding, conditioning
handling, the resnet blocks, the final projection and the residual sum with
the input. -/
def LinearNetwork.forward (acts : Acts) (p : LinParams) (rng : Rng) (x : Mat)
    (time : Vec) (cond : Option LabelTensor) (cond_drop_prob : Option ℚ) :
    Except UErr (Mat × Rng) :=
  let batch := x.length
  let time' := if time.length = 1 then List.replicate batch (time.headD 0) else time
  let tEmbs := time'.map (timeEmbOf acts p)
  match (condHandle p.cond acts rng batch cond cond_drop_prob).2 with
  | .error e => .error e
  | .ok (c, rng1) =>
    let body := foldBlocks acts p.blocks x tEmbs c rng1
    .ok (List.zipWith vadd (body.1.map p.final_proj.apply) x, body.2)

/-! ### `Unet` (networks.py lines 618-864), shape level

The image pipeline is modelled on tensor shapes `(channels, height, width)`:
every layer of the source preserves or transforms the shape in a way that is
a function of the construction-time channel arithmetic, and the claims about
the U-Net (shape invariance, the divisibility precondition, skip-stack
balance) are claims about exactly this structure. -/

/-- The shape of one image feature map. -/
structure Shape where
  c : Nat
  h : Nat
  w : Nat
deriving DecidableEq

/-- A padded convolution (`nn.Conv2d(in_c, out_c, k, padding = (k-1)/2)`,
used by `init_conv`, the stage-final 3x3 convs and `final_conv`): spatial
size preserved, channels must match. -/
def convS (in_c out_c : Nat) (s : Shape) : Except UErr Shape :=
  if s.c = in_c then .ok ⟨out_c, s.h, s.w⟩ else .error .channelMismatch

/-- `ResnetBlock` (lines 429-468) at shape level: `block1` maps `in_c` to
`out_c`, `block2` and the residual conv preserve the result. -/
def resnetS (in_c out_c : Nat) (s : Shape) : Except UErr Shape :=
  if s.c = in_c then .ok ⟨out_c, s.h, s.w⟩ else .error .channelMismatch

/-- Attention (either variant, lines 551-615): the 1x1 qkv projection needs
`dim` input channels and the residual output has the same shape. -/
def attnS (dim : Nat) (s : Shape) : Except UErr Shape :=
  if s.c = dim then .ok s else .error .channelMismatch

/-- `downsample` (lines 397-401): the space-to-depth rearrange needs both
spatial dims even, then a 1x1 conv `4*dim -> out_dim`. -/
def downsampleS (in_c out_c : Nat) (s : Shape) : Except UErr Shape :=
  if s.c = in_c then
    if s.h % 2 = 0 ∧ s.w % 2 = 0 then .ok ⟨out_c, s.h / 2, s.w / 2⟩
    else .error .spatialMismatch
  else .error .channelMismatch

/-- `upsample` (lines 390-394): nearest-neighbour doubling then a padded conv. -/
def upsampleS (in_c out_c : Nat) (s : Shape) : Except UErr Shape :=
  if s.c = in_c then .ok ⟨out_c, 2 * s.h, 2 * s.w⟩ else .error .channelMismatch

/-- `t.cat(x, y, dim=1)`: channels add, spatial dims must agree. -/
def concatS (a b : Shape) : Except UErr Shape :=
  if a.h = b.h ∧ a.w = b.w then .ok ⟨a.c + b.c, a.h, a.w⟩ else .error .spatialMismatch

/-- Whether the trailing module of a stage resamples spatially (`downsample` /
`upsample`) or is the plain channel-changing conv used at the last stage
(`is_last` in `Unet.__init__`). -/
inductive Resample
  | spatial
  | conv
deriving DecidableEq

/-- One stage descriptor: the `(in_dim, out_dim)` pair from `in_out` and the
resampling choice fixed in `Unet.__init__`. -/
abbrev Stage := (Nat × Nat) × Resample

/-- Mark each stage with `Resample.spatial` except the last, which receives
`f` (for the stage lists built in `Unet.__init__`, `f = Resample.conv`). -/
def markLast (f : Resample) : List (Nat × Nat) → List Stage
  | [] => []
  | [a] => [(a, f)]
  | a :: rest => (a, .spatial) :: markLast f rest

/-- One encoder stage (lines 838-846): two resnet blocks and residual
attention, pushing the first block's output and then the attention output
onto the skip stack, then the trailing resample/conv. -/
def encStep (st : Stage) (s : Shape) (stk : List Shape) :
    Except UErr (Shape × List Shape) := do
  let s1 ← resnetS st.1.1 st.1.1 s
  let s2 ← resnetS st.1.1 st.1.1 s1
  let s3 ← attnS st.1.1 s2
  let s4 ←
    match st.2 with
    | .spatial => downsampleS st.1.1 st.1.2 s3
    | .conv => convS st.1.1 st.1.2 s3
  .ok (s4, s3 :: s1 :: stk)

/-- The encoder pass (the `for ... in self.downs` loop). -/
def encode : List Stage → Shape → List Shape → Except UErr (Shape × List Shape)
  | [], s, stk => .ok (s, stk)
  | st :: rest, s, stk => (encStep st s stk).bind (fun p => encode rest p.1 p.2)

/-- One decoder stage (lines 852-860): pop and concatenate, resnet block,
pop and concatenate, resnet block, residual attention, trailing
resample/conv.  Popping an empty stack is the underflow error. -/
def decStep (st : Stage) (s : Shape) (stk : List Shape) :
    Except UErr (Shape × List Shape) :=
  match stk with
  | [] => .error .stackUnderflow
  | p1 :: stk1 => do
    let sc1 ← concatS s p1
    let s1 ← resnetS (st.1.2 + st.1.1) st.1.2 sc1
    match stk1 with
    | [] => .error .stackUnderflow
    | p2 :: stk2 => do
      let sc2 ← concatS s1 p2
      let s2 ← resnetS (st.1.2 + st.1.1) st.1.2 sc2
      let s3 ← attnS st.1.2 s2
      let s4 ←
        match st.2 with
        | .spatial => upsampleS st.1.2 st.1.1 s3
        | .conv => convS st.1.2 st.1.1 s3
      .ok (s4, stk2)

/-- The decoder pass (the `for ... in self.ups` loop). -/
def decode : List Stage → Shape → List Shape → Except UErr (Shape × List Shape)
  | [], s, stk => .ok (s, stk)
  | st :: rest, s, stk => (decStep st s stk).bind (fun p => decode rest p.1 p.2)

/-- The skip-stack contents after a full encoder pass over the stage pairs
`sts` starting from spatial size `(h, w)` (most recently pushed first):
each stage pushes two feature maps at its working resolution, and every
stage except the last halves the resolution afterwards. -/
def encStack : List (Nat × Nat) → Nat → Nat → List Shape
  | [], _, _ => []
  | [(i, _)], h, w => [⟨i, h, w⟩, ⟨i, h, w⟩]
  | (i, _) :: rest, h, w => encStack rest (h / 2) (w / 2) ++ [⟨i, h, w⟩, ⟨i, h, w⟩]

/-- Construction-time configuration of a `Unet` (lines 619-636); only the
fields that determine shape behaviour and conditioning appear.  `cond`
bundles `num_classes` with the conditioning parameters. -/
structure UnetCfg where
  dim : Nat
  dim_mults : List Nat
  channels : Nat
  init_dim : Option Nat
  out_dim : Option Nat
  cond : Option CondP
deriving DecidableEq

/-- `self.init_dim = default(init_dim, dim)` (line 641). -/
def UnetCfg.initDim (c : UnetCfg) : Nat := c.init_dim.getD c.dim

/-- `self.out_dim = default(out_dim, channels)` (line 642). -/
def UnetCfg.outDim (c : UnetCfg) : Nat := c.out_dim.getD c.channels

/-- `dims = [init_dim, *map(lambda m: dim * m, dim_mults)]` (line 645). -/
def UnetCfg.dims (c : UnetCfg) : List Nat := c.initDim :: c.dim_mults.map (c.dim * ·)

/-- `in_out = list(zip(dims[:-1], dims[1:]))` (line 646). -/
def inOut (l : List Nat) : List (Nat × Nat) := l.zip l.tail

/-- `Unet.downsample_factor = 2 ** (len(self.downs) - 1)` (lines 777-779). -/
def UnetCfg.downsampleFactor (c : UnetCfg) : Nat := 2 ^ (c.dim_mults.length - 1)

/-- The bottleneck channel width `mid_dim = dims[-1]` (line 738). -/
def UnetCfg.midDim (c : UnetCfg) : Nat := c.dims.getLastD 0

/-- The U-Net layer pipeline (lines 829-864), which the source runs after the
divisibility assert: `init_conv`, the time embedding, the encoder pass over
`self.downs`, the bottleneck, the decoder pass over `self.ups`, the final
concatenation with the `init_conv` output and the final blocks.  Returns the
phases that completed together with the result. -/
def unetPipeline (c : UnetCfg) (s : Shape) : List UEvent × Except UErr Shape :=
  let sts := inOut c.dims
  match convS c.channels c.initDim s with
  | .error e => ([], .error e)
  | .ok s0 =>
    -- r = x.clone(); time = self.time_mlp(time)
    match encode (markLast .conv sts) s0 [] with
    | .error e => ([.initConv, .timeEmbed], .error e)
    | .ok (s1, stk) =>
      let mid := do
        let m1 ← resnetS c.midDim c.midDim s1
        let m2 ← attnS c.midDim m1
        resnetS c.midDim c.midDim m2
      match mid with
      | .error e => ([.initConv, .timeEmbed, .encoderPass], .error e)
      | .ok s2 =>
        match decode (markLast .conv sts.reverse) s2 stk with
        | .error e => ([.initConv, .timeEmbed, .encoderPass, .midPass], .error e)
        | .ok (s3, _) =>
          let fin := do
            let sc ← concatS s3 s0
            let s4 ← resnetS (c.dim * 2) c.dim sc
            convS c.dim c.outDim s4
          match fin with
          | .error e => ([.initConv, .timeEmbed, .encoderPass, .midPass, .decoderPass], .error e)
          | .ok s5 =>
            ([.initConv, .timeEmbed, .encoderPass, .midPass, .decoderPass, .finalPass], .ok s5)

/-- `Unet.forward` (lines 781-864): the conditioning block runs first, then
the `assert` that both spatial dimensions are divisible by the downsample
factor, then the layer pipeline. -/
def Unet.forward (c : UnetCfg) (acts : Acts) (rng : Rng) (batch : Nat)
    (x : Shape) (classes : Option LabelTensor) (cond_drop_prob : Option ℚ) :
    List UEvent × Except UErr Shape :=
  let ch := condHandle c.cond acts rng batch classes cond_drop_prob
  match ch.2 with
  | .error e => (ch.1, .error e)
  | .ok _ =>
    if x.h % c.downsampleFactor = 0 ∧ x.w % c.downsampleFactor = 0 then
      let pl := unetPipeline c x
      (ch.1 ++ pl.1, pl.2)
    else (ch.1, .error .dimensionMismatch)

/-! ### Stateful view of the forward evaluations

The mutable state a forward call can see consists of the module's learned
parameters and the global random generator.  The source forward methods
never assign to any parameter attribute; the only state they advance is the
random stream (dropout masks, label synthesis).  The wrappers below make
that state passing explicit so the frame property is a theorem. -/

/-- `LinearNetwork.forward` as a transformer of the `(parameters, rng)`
state: parameters are read, the random stream is advanced. -/
def LinearNetwork.forwardStateful (acts : Acts) (x : Mat) (time : Vec)
    (cond : Option LabelTensor) (cond_drop_prob : Option ℚ)
    (st : LinParams × Rng) : Except UErr Mat × (LinParams × Rng) :=
  match LinearNetwork.forward acts st.1 st.2 x time cond cond_drop_prob with
  | .ok (y, rng') => (.ok y, (st.1, rng'))
  | .error e => (.error e, st)

/-- `Unet.forward` as a transformer of the `(configuration and parameters,
rng)` state; the random stream is advanced by the conditioning block. -/
def Unet.forwardStateful (acts : Acts) (batch : Nat) (x : Shape)
    (classes : Option LabelTensor) (cond_drop_prob : Option ℚ)
    (st : UnetCfg × Rng) : (List UEvent × Except UErr Shape) × (UnetCfg × Rng) :=
  let ch := condHandle st.1.cond acts st.2 batch classes cond_drop_prob
  (Unet.forward st.1 acts st.2 batch x classes cond_drop_prob,
    (st.1, match ch.2 with | .ok (_, rng') => rng' | .error _ => st.2))

/-- Events belonging to the conditioning block (as opposed to the image
layer pipeline). -/
def UEvent.isCond : UEvent → Bool
  | .classEmbLookup => true
  | .classesMlp => true
  | _ => false

/-- A label tensor shape the forward methods accept without raising:
either rank at most one, or rank two with a trailing singleton. -/
def LabelTensor.okShape (c : LabelTensor) : Bool :=
  ¬(c.shape.length > 1 ∧ ¬(c.shape.length = 2 ∧ c.shape.getLastD 0 = 1))

/-- Whether optional conditioning input passes the shape normalisation. -/
def condInputOk (cond : Option LabelTensor) : Bool :=
  match cond with
  | none => true
  | some c => c.okShape

/-! ### Well-formedness of `LinearNetwork` parameters

`LinearNetwork.__init__` builds every module from `dim` and `hidden_dims`;
these predicates record the dimensions the constructor guarantees, which the
shape theorems assume. -/

/-- An affine layer with `n` output features. -/
def linearWF (l : LinearP) (n : Nat) : Bool :=
  l.weight.length == n && l.bias.length == n

/-- A `LinearBlock` producing `outD` features. -/
def linBlockWF (outD : Nat) (bp : LinBlockP) : Bool :=
  linearWF bp.proj outD && bp.norm.gamma.length == outD && bp.norm.beta.length == outD

/-- A `LinearResnetBlock(inD, outD, ...)`: the FiLM MLP produces `2 * outD`
values, both blocks produce `outD`, and the residual projection is the
identity exactly when the widths agree. -/
def linResWF (inD outD : Nat) (rp : LinResP) : Bool :=
  linearWF rp.mlp (2 * outD) && linBlockWF outD rp.block1 && linBlockWF outD rp.block2 &&
    (match rp.res_proj with
     | none => inD == outD
     | some l => linearWF l outD)

/-- The block stack follows the width chain `hs = [dim] ++ hidden_dims`. -/
def blocksWF : Nat → List Nat → List LinResP → Bool
  | _, [], [] => true
  | iD, oD :: ds, rp :: rps => linResWF iD oD rp && blocksWF oD ds rps
  | _, _, _ => false

/-- All constructor-guaranteed dimensions of a `LinearNetwork`. -/
def LinParams.wf (p : LinParams) : Bool :=
  blocksWF p.dim p.hidden_dims p.blocks && linearWF p.final_proj p.dim

/-! ### Chaining of the `in_out` stage pairs -/

/-- The stage pairs form a channel chain starting at `c`. -/
def chainFrom : Nat → List (Nat × Nat) → Prop
  | _, [] => True
  | c, (i, o) :: rest => i = c ∧ chainFrom o rest

/-- The channel width at the end of a stage chain. -/
def lastOut : Nat → List (Nat × Nat) → Nat
  | c, [] => c
  | _, (_, o) :: rest => lastOut o rest

/-! ### Concrete fixtures used by witness theorems -/

/-- Identity-flavoured realisation of the abstracted scalar functions. -/
def actsW : Acts := ⟨id, id, id, id, id, 6⟩

/-- A tiny conditioning configuration: two classes, one embedding feature. -/
def condW : CondP :=
  { cond_dim := 2
    cond_drop_prob := 1 / 2
    emb := [[3], [4]]
    null_classes_emb := [7]
    mlp1 := ⟨[[1]], [0]⟩
    mlp2 := ⟨[[1]], [0]⟩ }

/-- A tiny conditional `LinearNetwork`: data dimension 1, one hidden width 1,
one sinusoidal weight (so the positional embedding has 3 entries). -/
def linW : LinParams :=
  { dim := 1
    hidden_dims := [1]
    sin_weights := [1]
    time1 := ⟨[[1, 0, 0]], [0]⟩
    time2 := ⟨[[1]], [0]⟩
    cond := some condW
    blocks :=
      [{ mlp := ⟨[[1, 1], [1, 1]], [0, 0]⟩
         block1 := { proj := ⟨[[1]], [0]⟩, norm := ⟨[1], [0]⟩, dropout_p := 0 }
         block2 := { proj := ⟨[[1]], [0]⟩, norm := ⟨[1], [0]⟩, dropout_p := 0 }
         res_proj := none }]
    final_proj := ⟨[[1]], [0]⟩ }

/-- A tiny conditional `Unet` configuration: one stage. -/
def unetW : UnetCfg :=
  { dim := 1, dim_mults := [1], channels := 1, init_dim := none, out_dim := none
    cond := some condW }

/-- A two-stage conditional `Unet` configuration (downsample factor 2). -/
def unetW2 : UnetCfg :=
  { dim := 1, dim_mults := [1, 2], channels := 1, init_dim := none, out_dim := none
    cond := some condW }

/-- A one-stage unconditional `Unet` whose output-channel override differs
from its input channel count. -/
def unetWOut : UnetCfg :=
  { dim := 1, dim_mults := [1], channels := 1, init_dim := none, out_dim := some 2
    cond := none }

/-! ## Theorems -/

/-- Claim C2: calling `forward_with_cond_scale` with `cond_scale = 1` returns
exactly the output of `forward` with `cond_drop_prob = 0`, for every network
(`fwd`), every `rescaled_phi` and every square-root realisation; the early
return fires before the unconditional pass is consulted. -/
theorem claim_C2_guidance_identity (sq : ℚ → ℚ) (fwd : ℚ → Mat) (rescaled_phi : ℚ) :
    forward_with_cond_scale sq fwd 1 rescaled_phi = fwd 0 := by
  simp [forward_with_cond_scale]

/-- Claim C3: when the guidance scale differs from 1,
`forward_with_cond_scale` returns the linear extrapolation
`logitsUncond + (logitsCond - logitsUncond) * cond_scale` when
`rescaled_phi = 0`, and otherwise the blend
`rescaled * rescaled_phi + scaled * (1 - rescaled_phi)` where `rescaled`
multiplies `scaled` per sample by the quotient of the standard deviation of
`logitsCond` and that of `scaled`; here `logitsCond = fwd 0` (dropout forced
to 0) and `logitsUncond = fwd 1` (dropout forced to 1). -/
theorem claim_C3_guidance_combination (sq : ℚ → ℚ) (fwd : ℚ → Mat)
    (cond_scale rescaled_phi : ℚ) (h : cond_scale ≠ 1) :
    forward_with_cond_scale sq fwd cond_scale rescaled_phi =
      if rescaled_phi = 0 then guidanceSpecScaled fwd cond_scale
      else guidanceSpecBlend sq fwd cond_scale rescaled_phi := by
  simp only [forward_with_cond_scale, guidanceSpecScaled, guidanceSpecBlend,
    guidanceSpecRescaled, if_neg h]

/-- Witness for claim C3 at a concrete network and scale 2. -/
theorem claim_C3_witness :
    forward_with_cond_scale id (fun p => [[p, 2 * p + 1]]) 2 (1 / 2) =
      if (1 / 2 : ℚ) = 0 then guidanceSpecScaled (fun p => [[p, 2 * p + 1]]) 2
      else guidanceSpecBlend id (fun p => [[p, 2 * p + 1]]) 2 (1 / 2) :=
  claim_C3_guidance_combination id (fun p => [[p, 2 * p + 1]]) 2 (1 / 2) (by norm_num)

/-- Claim C8: constructing an `Attend` module with flash attention requested
fails exactly when the torch version is below 2.0.0, at construction time;
when construction succeeds, the forward dispatch and the kernel configuration
are fixed by the construction-time inputs alone. -/
theorem claim_C8_flash_construction (dropout : ℚ) (flash : Bool) (v : TorchVersion)
    (cudaAvailable : Bool) (devMajor devMinor : Nat) :
    ((∃ e, Attend.init dropout flash v cudaAvailable devMajor devMinor = .error e) ↔
      flash = true ∧ TorchVersion.lt v ⟨2, 0, 0⟩ = true) ∧
    (∀ st, Attend.init dropout flash v cudaAvailable devMajor devMinor = .ok st →
      Attend.usesFlashPath st = flash ∧
      st.cuda_config = cudaSelect flash cudaAvailable devMajor devMinor ∧
      st.cpu_config = ⟨true, true, true⟩) := by
  unfold Attend.init
  by_cases h : (flash ∧ TorchVersion.lt v ⟨2, 0, 0⟩ : Prop)
  · refine ⟨⟨fun _ => ?_, fun _ => ?_⟩, fun st hst => ?_⟩
    · simpa using h
    · exact ⟨.flashNeedsTorch2, by simp [h]⟩
    · simp [h] at hst
  · refine ⟨⟨fun ⟨e, he⟩ => ?_, fun hc => ?_⟩, fun st hst => ?_⟩
    · simp [h] at he
    · exact absurd (by simpa using hc) h
    · simp only [if_neg h, Except.ok.injEq] at hst
      subst hst
      exact ⟨rfl, rfl, rfl⟩

/-- Witness for claim C8: construction on torch 2.1.0 with flash requested on
an A100 succeeds and fixes the flash dispatch and the kernel configuration. -/
theorem claim_C8_witness :
    Attend.usesFlashPath
        { dropout := 0, flash := true, cpu_config := ⟨true, true, true⟩,
          cuda_config := some ⟨true, false, false⟩ } = true ∧
      (some ⟨true, false, false⟩ : Option AttentionConfig) = cudaSelect true true 8 0 ∧
      (⟨true, true, true⟩ : AttentionConfig) = ⟨true, true, true⟩ :=
  (claim_C8_flash_construction 0 true ⟨2, 1, 0⟩ true 8 0).2
    { dropout := 0, flash := true, cpu_config := ⟨true, true, true⟩,
      cuda_config := some ⟨true, false, false⟩ } rfl

/-- Claim C10: for every positive configured group count, `Block.__init__`
silently falls back to a single normalisation group when the count does not
divide the output width and keeps the configured count when it does; in both
cases the group count handed to `nn.GroupNorm` is positive and divides the
output width, so neither construction nor forward evaluation raises. -/
theorem claim_C10_groupnorm_fallback (out_dim groups : Nat) (hg : 0 < groups) :
    (¬groups ∣ out_dim → Block.groupsUsed out_dim groups = 1) ∧
    (groups ∣ out_dim → Block.groupsUsed out_dim groups = groups) ∧
    0 < Block.groupsUsed out_dim groups ∧
    out_dim % Block.groupsUsed out_dim groups = 0 := by
  unfold Block.groupsUsed
  by_cases h : out_dim % groups = 0
  · have hdvd : groups ∣ out_dim := Nat.dvd_iff_mod_eq_zero.mpr h
    simp [h, hg, hdvd]
  · have hndvd : ¬groups ∣ out_dim := fun hd => h (Nat.dvd_iff_mod_eq_zero.mp hd)
    simp [h, hndvd, Nat.mod_one]

/-- Witness for claim C10 at `out_dim = 6`, `groups = 4` (not dividing). -/
theorem claim_C10_witness :
    (¬(4 : Nat) ∣ 6 → Block.groupsUsed 6 4 = 1) ∧
    ((4 : Nat) ∣ 6 → Block.groupsUsed 6 4 = 4) ∧
    0 < Block.groupsUsed 6 4 ∧
    6 % Block.groupsUsed 6 4 = 0 :=
  claim_C10_groupnorm_fallback 6 4 (by decide)

/-! ### Lemmas about the conditioning dropout path -/

/-- Entries drawn from a uniform stream of nonnegative values are nonnegative
(exhausted streams default to 0). -/
lemma unifs_getD_nonneg (rng : Rng) (h : ∀ r ∈ rng.unifs, 0 ≤ r) (i : Nat) :
    0 ≤ rng.unifs.getD i 0 := by
  by_cases hi : i < rng.unifs.length
  · rw [List.getD_eq_getElem _ _ hi]
    exact h _ (List.getElem_mem _)
  · rw [List.getD_eq_default _ _ (le_of_not_lt hi)]

/-- With dropout probability 1 the keep mask `t.rand(batch) < 1 - 1` is
everywhere false, because `t.rand` draws are nonnegative. -/
lemma keepMask_one_false (rng : Rng) (batch : Nat) (h : ∀ r ∈ rng.unifs, 0 ≤ r) :
    ∀ k ∈ keepMask rng batch 1, k = false := by
  intro k hk
  simp only [keepMask, Rng.takeUnifs, List.map_map, List.mem_map, List.mem_range] at hk
  obtain ⟨i, _, hdef⟩ := hk
  rw [← hdef]
  simp only [Function.comp_apply, decide_eq_false_iff_not, not_lt]
  have := unifs_getD_nonneg rng h i
  linarith

/-- `t.where` with an everywhere-false mask replaces every row by the null
embedding. -/
lemma zipWith_mask_false (n : Vec) (ks : List Bool) (es : Mat)
    (hk : ∀ k ∈ ks, k = false) :
    List.zipWith (fun k e => if k then e else n) ks es =
      List.replicate (min ks.length es.length) n := by
  induction ks generalizing es with
  | nil => simp
  | cons k ks ih =>
    cases es with
    | nil => simp
    | cons e es =>
      have hk0 : k = false := hk k (by simp)
      have hrest : ∀ k' ∈ ks, k' = false := fun k' hk' => hk k' (by simp [hk'])
      simp only [List.zipWith_cons_cons, hk0, Bool.false_eq_true, if_false,
        List.length_cons, ih es hrest, Nat.succ_min_succ, List.replicate_succ]

/-- The keep mask has one entry per batch element. -/
lemma keepMask_length (rng : Rng) (batch : Nat) (p : ℚ) :
    (keepMask rng batch p).length = batch := by
  simp [keepMask, Rng.takeUnifs]

/-- Conditioning with dropout override 1: every batch element receives the
null embedding, so the produced conditioning vectors depend only on the
number of labels, not their values. -/
lemma condHandle_dropAll (cp : CondP) (acts : Acts) (rng : Rng) (batch : Nat)
    (c : LabelTensor) (hok : c.okShape = true) (h : ∀ r ∈ rng.unifs, 0 ≤ r) :
    condHandle (some cp) acts rng batch (some c) (some 1) =
      ([.classEmbLookup, .classesMlp],
        .ok (some (List.replicate (min batch c.flat.length)
            (condMlp acts cp cp.null_classes_emb)),
          ⟨rng.unifs.drop batch, rng.ints⟩)) := by
  have hcond : ¬(c.shape.length > 1 ∧ ¬(c.shape.length = 2 ∧ c.shape.getLastD 0 = 1)) := by
    have hb := hok
    unfold LabelTensor.okShape at hb
    exact of_decide_eq_true hb
  simp only [condHandle, Option.getD_some]
  rw [if_neg hcond, if_pos (by norm_num : (0 : ℚ) < 1)]
  rw [zipWith_mask_false cp.null_classes_emb _ _ (keepMask_one_false rng batch h)]
  simp [keepMask_length, List.map_replicate]

/-- Squeezing: a label tensor of shape `[b, 1]` is handled identically to the
rank-one tensor with the same entries. -/
lemma condHandle_squeeze (cp? : Option CondP) (acts : Acts) (rng : Rng)
    (batch b : Nat) (v : List Nat) (cdp : Option ℚ) :
    condHandle cp? acts rng batch (some ⟨[b, 1], v⟩) cdp =
      condHandle cp? acts rng batch (some ⟨[b], v⟩) cdp := by
  cases cp? with
  | none => rfl
  | some cp => simp [condHandle]

/-- A label tensor of any shape that fails the squeeze test (rank greater
than one and not rank two with a trailing singleton) raises the `ValueError`
carrying the expected shape `(batch,)`, before any embedding work. -/
lemma condHandle_badShape (cp : CondP) (acts : Acts) (rng : Rng) (batch : Nat)
    (ct : LabelTensor) (cdp : Option ℚ) (hbad : ct.okShape = false) :
    condHandle (some cp) acts rng batch (some ct) cdp =
      ([], .error (.shapeMismatch [batch] ct.shape)) := by
  have hcond : ct.shape.length > 1 ∧ ¬(ct.shape.length = 2 ∧ ct.shape.getLastD 0 = 1) := by
    have hb := hbad
    unfold LabelTensor.okShape at hb
    exact not_not.mp (of_decide_eq_false hb)
  simp only [condHandle]
  rw [if_pos hcond]

/-- Claim C5: with `cond_drop_prob = 1.0` every batch element's class
embedding is replaced by the null embedding, so a conditional network's
forward output is independent of the supplied label values, for both the
vector network and the image network, once the random stream is fixed. -/
theorem claim_C5_full_dropout (acts : Acts) (p : LinParams) (uc : UnetCfg)
    (cp cp' : CondP) (rng : Rng) (x : Mat) (time : Vec) (batch : Nat) (xs : Shape)
    (c c' : LabelTensor)
    (hp : p.cond = some cp) (hu : uc.cond = some cp')
    (h : ∀ r ∈ rng.unifs, 0 ≤ r)
    (hok : c.okShape = true) (hok' : c'.okShape = true)
    (hlen : c.flat.length = c'.flat.length) :
    LinearNetwork.forward acts p rng x time (some c) (some 1) =
      LinearNetwork.forward acts p rng x time (some c') (some 1) ∧
    Unet.forward uc acts rng batch xs (some c) (some 1) =
      Unet.forward uc acts rng batch xs (some c') (some 1) := by
  constructor
  · simp only [LinearNetwork.forward, hp]
    rw [condHandle_dropAll cp acts rng x.length c hok h,
      condHandle_dropAll cp acts rng x.length c' hok' h, hlen]
  · simp only [Unet.forward, hu]
    rw [condHandle_dropAll cp' acts rng batch c hok h,
      condHandle_dropAll cp' acts rng batch c' hok' h, hlen]

/-- Witness for claim C5: two different label batches, full dropout, equal
outputs, on the fixture networks. -/
theorem claim_C5_witness :
    LinearNetwork.forward actsW linW ⟨[0, 0], []⟩ [[1], [2]] [0, 0]
        (some ⟨[2], [0, 1]⟩) (some 1) =
      LinearNetwork.forward actsW linW ⟨[0, 0], []⟩ [[1], [2]] [0, 0]
        (some ⟨[2], [1, 0]⟩) (some 1) ∧
    Unet.forward unetW actsW ⟨[0, 0], []⟩ 2 ⟨1, 2, 2⟩
        (some ⟨[2], [0, 1]⟩) (some 1) =
      Unet.forward unetW actsW ⟨[0, 0], []⟩ 2 ⟨1, 2, 2⟩
        (some ⟨[2], [1, 0]⟩) (some 1) :=
  claim_C5_full_dropout actsW linW unetW condW condW ⟨[0, 0], []⟩
    [[1], [2]] [0, 0] 2 ⟨1, 2, 2⟩ ⟨[2], [0, 1]⟩ ⟨[2], [1, 0]⟩
    rfl rfl (by intro r hr; fin_cases hr <;> norm_num) rfl rfl rfl

/-- Claim C6: a conditional network squeezes a label tensor of shape `(B, 1)`
and produces exactly the result of the `(B,)` tensor with the same values,
while a label tensor of any other shape of rank greater than one — any shape
failing the squeeze test, such as `(B, 2)`, `(B, 3)` or a higher-rank tensor
— raises the shape error naming the expected shape, for both networks. -/
theorem claim_C6_label_shape (acts : Acts) (p : LinParams) (uc : UnetCfg)
    (cp cp' : CondP) (rng : Rng) (x : Mat) (time : Vec) (batch : Nat) (xs : Shape)
    (b : Nat) (v : List Nat) (cdp : Option ℚ) (ct : LabelTensor)
    (hp : p.cond = some cp) (hu : uc.cond = some cp')
    (hbad : ct.okShape = false) :
    (LinearNetwork.forward acts p rng x time (some ⟨[b, 1], v⟩) cdp =
      LinearNetwork.forward acts p rng x time (some ⟨[b], v⟩) cdp) ∧
    (LinearNetwork.forward acts p rng x time (some ct) cdp =
      .error (.shapeMismatch [x.length] ct.shape)) ∧
    (Unet.forward uc acts rng batch xs (some ⟨[b, 1], v⟩) cdp =
      Unet.forward uc acts rng batch xs (some ⟨[b], v⟩) cdp) ∧
    (Unet.forward uc acts rng batch xs (some ct) cdp =
      ([], .error (.shapeMismatch [batch] ct.shape))) := by
  refine ⟨?_, ?_, ?_, ?_⟩
  · simp only [LinearNetwork.forward]
    rw [condHandle_squeeze]
  · simp only [LinearNetwork.forward, hp]
    rw [condHandle_badShape cp acts rng x.length ct cdp hbad]
  · simp only [Unet.forward]
    rw [condHandle_squeeze]
  · simp only [Unet.forward, hu]
    rw [condHandle_badShape cp' acts rng batch ct cdp hbad]

/-- Witness for claim C6 on the fixture networks, with the rejected label
tensor of shape `(2, 2)`. -/
theorem claim_C6_witness :
    (LinearNetwork.forward actsW linW ⟨[], []⟩ [[1], [2]] [0, 0]
        (some ⟨[2, 1], [0, 1]⟩) none =
      LinearNetwork.forward actsW linW ⟨[], []⟩ [[1], [2]] [0, 0]
        (some ⟨[2], [0, 1]⟩) none) ∧
    (LinearNetwork.forward actsW linW ⟨[], []⟩ [[1], [2]] [0, 0]
        (some ⟨[2, 2], [0, 1]⟩) none =
      .error (.shapeMismatch [2] [2, 2])) ∧
    (Unet.forward unetW actsW ⟨[], []⟩ 2 ⟨1, 2, 2⟩ (some ⟨[2, 1], [0, 1]⟩) none =
      Unet.forward unetW actsW ⟨[], []⟩ 2 ⟨1, 2, 2⟩ (some ⟨[2], [0, 1]⟩) none) ∧
    (Unet.forward unetW actsW ⟨[], []⟩ 2 ⟨1, 2, 2⟩ (some ⟨[2, 2], [0, 1]⟩) none =
      ([], .error (.shapeMismatch [2] [2, 2]))) :=
  claim_C6_label_shape actsW linW unetW condW condW ⟨[], []⟩ [[1], [2]] [0, 0]
    2 ⟨1, 2, 2⟩ 2 [0, 1] none ⟨[2, 2], [0, 1]⟩ rfl rfl (by decide)

/-- Claim C9: a forward evaluation never mutates the learned parameters: in
the stateful view of either network, the parameter component of the state
after the call equals the one before it, for every input, conditioning and
random state; only the random stream advances. -/
theorem claim_C9_parameter_frame (acts : Acts) (x : Mat) (time : Vec)
    (cond : Option LabelTensor) (cdp : Option ℚ) (batch : Nat) (xs : Shape)
    (stL : LinParams × Rng) (stU : UnetCfg × Rng) :
    (LinearNetwork.forwardStateful acts x time cond cdp stL).2.1 = stL.1 ∧
    (Unet.forwardStateful acts batch xs cond cdp stU).2.1 = stU.1 := by
  constructor
  · unfold LinearNetwork.forwardStateful
    split <;> rfl
  · rfl

/-! ### Arithmetic helpers for the spatial halving chain -/

lemma two_dvd_of_pow_succ_dvd {n h : Nat} (hd : 2 ^ (n + 1) ∣ h) : 2 ∣ h :=
  dvd_trans (dvd_pow_self 2 (Nat.succ_ne_zero n)) hd

lemma pow_dvd_half {n h : Nat} (hd : 2 ^ (n + 1) ∣ h) : 2 ^ n ∣ h / 2 := by
  obtain ⟨t, rfl⟩ := hd
  rw [pow_succ', Nat.mul_assoc, Nat.mul_div_cancel_left _ (by norm_num : 0 < 2)]
  exact Dvd.intro t rfl

lemma half_div_pow (n h : Nat) : h / 2 / 2 ^ n = h / 2 ^ (n + 1) := by
  rw [Nat.div_div_eq_div_mul, ← pow_succ']

/-! ### Structure of the stage lists built in `Unet.__init__` -/

lemma markLast_cons₂ (f : Resample) (a b : Nat × Nat) (l : List (Nat × Nat)) :
    markLast f (a :: b :: l) = (a, .spatial) :: markLast f (b :: l) := rfl

lemma markLast_concat (f : Resample) (xs : List (Nat × Nat)) (a : Nat × Nat) :
    markLast f (xs ++ [a]) = xs.map (fun p => (p, Resample.spatial)) ++ [(a, f)] := by
  induction xs with
  | nil => rfl
  | cons x xs ih =>
    cases xs with
    | nil => rfl
    | cons y ys =>
      simp only [List.cons_append] at ih ⊢
      rw [markLast_cons₂, ih]
      simp

lemma markLast_spatial_eq_map (xs : List (Nat × Nat)) :
    markLast .spatial xs = xs.map (fun p => (p, Resample.spatial)) := by
  induction xs with
  | nil => rfl
  | cons x xs ih =>
    cases xs with
    | nil => rfl
    | cons y ys =>
      rw [markLast_cons₂, ih]
      simp

lemma encStack_length (sts : List (Nat × Nat)) (h w : Nat) :
    (encStack sts h w).length = 2 * sts.length := by
  induction sts generalizing h w with
  | nil => rfl
  | cons st sts ih =>
    cases sts with
    | nil => rfl
    | cons st' sts' =>
      obtain ⟨i, o⟩ := st
      simp only [encStack, List.length_append, ih, List.length_cons, List.length_nil]
      omega

/-- The `in_out` pairs chain from the head of `dims`. -/
lemma chainFrom_inOut (d : Nat) (l : List Nat) : chainFrom d (inOut (d :: l)) := by
  induction l generalizing d with
  | nil => trivial
  | cons e l ih => exact ⟨rfl, ih e⟩

/-- The chain ends at the last element of `dims`. -/
lemma lastOut_inOut (d : Nat) (l : List Nat) :
    lastOut d (inOut (d :: l)) = l.getLastD d := by
  induction l generalizing d with
  | nil => rfl
  | cons e l ih =>
    simp only [inOut, List.zip_cons_cons, lastOut, List.getLastD_cons]
    exact ih e

lemma inOut_length (d : Nat) (l : List Nat) : (inOut (d :: l)).length = l.length := by
  simp [inOut]

/-! ### The encoder pass -/

/-- Closed form of a successful encoder pass: a chained stage list starting at
the input channel width, with both spatial dimensions divisible by the total
downsampling factor, reaches the last channel width at the downsampled
resolution and pushes exactly the `encStack` feature maps. -/
lemma encode_ok (sts : List (Nat × Nat)) (c h w : Nat) (stk : List Shape)
    (hch : chainFrom c sts) (hne : sts ≠ [])
    (hh : 2 ^ (sts.length - 1) ∣ h) (hw : 2 ^ (sts.length - 1) ∣ w) :
    encode (markLast .conv sts) ⟨c, h, w⟩ stk =
      .ok (⟨lastOut c sts, h / 2 ^ (sts.length - 1), w / 2 ^ (sts.length - 1)⟩,
        encStack sts h w ++ stk) := by
  induction sts generalizing c h w stk with
  | nil => exact absurd rfl hne
  | cons st sts ih =>
    obtain ⟨i, o⟩ := st
    obtain ⟨hi, hch'⟩ := hch
    subst hi
    cases sts with
    | nil =>
      simp [markLast, encode, encStep, resnetS, attnS, convS, Bind.bind, Except.bind,
        lastOut, encStack]
    | cons st' sts' =>
      have hlen : (st' :: sts').length - 1 + 1 = ((i, o) :: st' :: sts').length - 1 := by
        simp
      have hh2 : 2 ∣ h := by
        rw [← hlen] at hh
        exact two_dvd_of_pow_succ_dvd hh
      have hw2 : 2 ∣ w := by
        rw [← hlen] at hw
        exact two_dvd_of_pow_succ_dvd hw
      have hhrec : 2 ^ ((st' :: sts').length - 1) ∣ h / 2 := by
        rw [← hlen] at hh
        exact pow_dvd_half hh
      have hwrec : 2 ^ ((st' :: sts').length - 1) ∣ w / 2 := by
        rw [← hlen] at hw
        exact pow_dvd_half hw
      have hstep :
          encode (markLast .conv ((i, o) :: st' :: sts')) ⟨i, h, w⟩ stk =
            encode (markLast .conv (st' :: sts')) ⟨o, h / 2, w / 2⟩
              (⟨i, h, w⟩ :: ⟨i, h, w⟩ :: stk) := by
        simp [markLast_cons₂, encode, encStep, resnetS, attnS, downsampleS, Bind.bind,
          Except.bind, (Nat.dvd_iff_mod_eq_zero).mp hh2, (Nat.dvd_iff_mod_eq_zero).mp hw2]
      rw [hstep, ih o (h / 2) (w / 2) _ hch' (by simp) hhrec hwrec]
      simp [lastOut, encStack, half_div_pow]

/-! ### The decoder pass -/

lemma decode_append (l1 l2 : List Stage) (s : Shape) (stk : List Shape) :
    decode (l1 ++ l2) s stk = (decode l1 s stk).bind (fun p => decode l2 p.1 p.2) := by
  induction l1 generalizing s stk with
  | nil => simp [decode, Bind.bind, Except.bind]
  | cons st l ih =>
    simp only [List.cons_append, decode]
    cases hd : decStep st s stk with
    | error e => simp [Bind.bind, Except.bind]
    | ok p => simp [Bind.bind, Except.bind, ih]

/-- One decoder stage with the two matching skip entries on top of the stack:
pops both, produces the `in_dim` width, and doubles the resolution when the
stage resamples spatially. -/
lemma decStep_ok (i o : Nat) (f : Resample) (h w : Nat) (stk : List Shape) :
    decStep ((i, o), f) ⟨o, h, w⟩ (⟨i, h, w⟩ :: ⟨i, h, w⟩ :: stk) =
      .ok (⟨i, if f = .conv then h else 2 * h, if f = .conv then w else 2 * w⟩, stk) := by
  cases f <;>
    simp [decStep, concatS, resnetS, attnS, convS, upsampleS, Bind.bind, Except.bind]

/-- Closed form of a successful decoder pass: consuming the skip stack a
matching encoder pass produced restores the head channel width, doubling the
resolution back up (or keeping it, at the final plain conv stage). -/
lemma decode_ok (sts : List (Nat × Nat)) (c h w : Nat) (stk : List Shape) (f : Resample)
    (hch : chainFrom c sts) (hne : sts ≠ [])
    (hh : 2 ^ (sts.length - 1) ∣ h) (hw : 2 ^ (sts.length - 1) ∣ w) :
    decode (markLast f sts.reverse)
        ⟨lastOut c sts, h / 2 ^ (sts.length - 1), w / 2 ^ (sts.length - 1)⟩
        (encStack sts h w ++ stk) =
      .ok (⟨c, if f = .conv then h else 2 * h, if f = .conv then w else 2 * w⟩, stk) := by
  induction sts generalizing c h w stk f with
  | nil => exact absurd rfl hne
  | cons st sts ih =>
    obtain ⟨i, o⟩ := st
    obtain ⟨hi, hch'⟩ := hch
    subst hi
    cases sts with
    | nil =>
      cases f <;>
        simp [markLast, decode, decStep, concatS, resnetS, attnS, convS, upsampleS,
          Bind.bind, Except.bind, lastOut, encStack]
    | cons st' sts' =>
      have hlen : (st' :: sts').length - 1 + 1 = ((i, o) :: st' :: sts').length - 1 := by
        simp
      have hh2 : 2 ∣ h := by
        rw [← hlen] at hh
        exact two_dvd_of_pow_succ_dvd hh
      have hw2 : 2 ∣ w := by
        rw [← hlen] at hw
        exact two_dvd_of_pow_succ_dvd hw
      have hhrec : 2 ^ ((st' :: sts').length - 1) ∣ h / 2 := by
        rw [← hlen] at hh
        exact pow_dvd_half hh
      have hwrec : 2 ^ ((st' :: sts').length - 1) ∣ w / 2 := by
        rw [← hlen] at hw
        exact pow_dvd_half hw
      -- the reversed stage list splits into the inner all-spatial stages
      -- followed by the outermost stage carrying the flag f
      have hsplit : markLast f (((i, o) :: st' :: sts').reverse) =
          markLast .spatial ((st' :: sts').reverse) ++ [((i, o), f)] := by
        rw [List.reverse_cons, markLast_concat, markLast_spatial_eq_map]
      rw [hsplit, decode_append]
      have hstack : encStack ((i, o) :: st' :: sts') h w ++ stk =
          encStack (st' :: sts') (h / 2) (w / 2) ++ (⟨i, h, w⟩ :: ⟨i, h, w⟩ :: stk) := by
        simp [encStack]
      rw [hstack]
      have hinner := ih o (h / 2) (w / 2) (⟨i, h, w⟩ :: ⟨i, h, w⟩ :: stk) .spatial
        hch' (by simp) hhrec hwrec
      simp only [lastOut] at hinner ⊢
      rw [half_div_pow, half_div_pow, hlen] at hinner
      rw [hinner]
      simp [Bind.bind, Except.bind, Nat.mul_div_cancel' hh2, Nat.mul_div_cancel' hw2,
        decode, decStep_ok]

/-! ### The conditioning block always succeeds on well-shaped input -/

/-- On acceptably shaped conditioning input, `condHandle` succeeds, records
only conditioning events, and produces one conditioning vector per batch
element (when the network is conditional and the label count matches). -/
lemma condHandle_spec (cp? : Option CondP) (acts : Acts) (rng : Rng) (batch : Nat)
    (cond : Option LabelTensor) (cdp : Option ℚ)
    (hok : condInputOk cond = true)
    (hlen : ∀ ct, cond = some ct → ct.flat.length = batch) :
    ∃ cm rng', (condHandle cp? acts rng batch cond cdp).2 = .ok (cm, rng') ∧
      (∀ e ∈ (condHandle cp? acts rng batch cond cdp).1, e.isCond = true) ∧
      ∀ m, cm = some m → m.length = batch := by
  cases cp? with
  | none => exact ⟨none, rng, rfl, by simp [condHandle], by simp⟩
  | some cp =>
    cases cond with
    | none =>
      simp only [condHandle, Option.getD_some]
      rw [if_neg (by norm_num), if_pos (by norm_num : (0 : ℚ) < 1)]
      refine ⟨_, _, rfl, by simp [UEvent.isCond], ?_⟩
      intro m hm
      simp only [Option.some.injEq] at hm
      subst hm
      simp [keepMask_length, Rng.takeInts]
    | some ct =>
      have hcond : ¬(ct.shape.length > 1 ∧ ¬(ct.shape.length = 2 ∧ ct.shape.getLastD 0 = 1)) := by
        have hb : ct.okShape = true := by simpa [condInputOk] using hok
        unfold LabelTensor.okShape at hb
        exact of_decide_eq_true hb
      simp only [condHandle]
      rw [if_neg hcond]
      by_cases hcdp : 0 < (cdp.getD cp.cond_drop_prob)
      · rw [if_pos hcdp]
        refine ⟨_, _, rfl, by simp [UEvent.isCond], ?_⟩
        intro m hm
        simp only [Option.some.injEq] at hm
        subst hm
        simp [keepMask_length, hlen ct rfl]
      · rw [if_neg hcdp]
        refine ⟨_, _, rfl, by simp [UEvent.isCond], ?_⟩
        intro m hm
        simp only [Option.some.injEq] at hm
        subst hm
        simp [hlen ct rfl]

/-! ### Full success of the image pipeline -/

/-- With the default `init_dim`, an input batch whose channel count matches
the configuration and whose spatial dimensions are divisible by the
downsampling factor, the whole layer pipeline succeeds: the encoder, the
bottleneck and the decoder compose, and the output shape is
`(out_dim, H, W)`. -/
lemma unetPipeline_ok (c : UnetCfg) (H W : Nat)
    (hne : c.dim_mults ≠ []) (hiD : c.initDim = c.dim)
    (hH : H % c.downsampleFactor = 0) (hW : W % c.downsampleFactor = 0) :
    unetPipeline c ⟨c.channels, H, W⟩ =
      ([.initConv, .timeEmbed, .encoderPass, .midPass, .decoderPass, .finalPass],
        .ok ⟨c.outDim, H, W⟩) := by
  obtain ⟨m, ms, hms⟩ : ∃ m ms, c.dim_mults = m :: ms := by
    cases hmm : c.dim_mults with
    | nil => exact absurd hmm hne
    | cons a l => exact ⟨a, l, rfl⟩
  have hdims : c.dims = c.initDim :: (c.dim_mults.map (c.dim * ·)) := rfl
  set l : List Nat := c.dim_mults.map (c.dim * ·) with hl
  have hlen : l.length = c.dim_mults.length := by simp [hl]
  have hlne : l ≠ [] := by simp [hl, hms]
  have hstsne : inOut c.dims ≠ [] := by
    rw [hdims]
    cases hll : l with
    | nil => exact absurd hll hlne
    | cons a as => simp [inOut]
  have hstslen : (inOut c.dims).length - 1 = c.dim_mults.length - 1 := by
    rw [hdims, inOut_length, hlen]
  have hHd : 2 ^ ((inOut c.dims).length - 1) ∣ H := by
    rw [hstslen]
    exact Nat.dvd_iff_mod_eq_zero.mpr hH
  have hWd : 2 ^ ((inOut c.dims).length - 1) ∣ W := by
    rw [hstslen]
    exact Nat.dvd_iff_mod_eq_zero.mpr hW
  have henc := encode_ok (inOut c.dims) c.initDim H W []
    (by rw [hdims]; exact chainFrom_inOut _ _) hstsne hHd hWd
  have hmid : lastOut c.initDim (inOut c.dims) = c.midDim := by
    rw [hdims, lastOut_inOut]
    unfold UnetCfg.midDim
    rw [hdims, List.getLastD_cons]
  have hdec := decode_ok (inOut c.dims) c.initDim H W [] .conv
    (by rw [hdims]; exact chainFrom_inOut _ _) hstsne hHd hWd
  have hconv : convS c.channels c.initDim ⟨c.channels, H, W⟩ = .ok ⟨c.initDim, H, W⟩ := by
    simp [convS]
  rw [List.append_nil] at henc hdec
  have hmidDo : (do
      let m1 ← resnetS c.midDim c.midDim
        ⟨lastOut c.initDim (inOut c.dims), H / 2 ^ ((inOut c.dims).length - 1),
          W / 2 ^ ((inOut c.dims).length - 1)⟩
      let m2 ← attnS c.midDim m1
      resnetS c.midDim c.midDim m2 : Except UErr Shape) =
      .ok ⟨lastOut c.initDim (inOut c.dims), H / 2 ^ ((inOut c.dims).length - 1),
        W / 2 ^ ((inOut c.dims).length - 1)⟩ := by
    rw [hmid]
    simp [resnetS, attnS, Bind.bind, Except.bind]
  have hdec' : decode (markLast .conv (inOut c.dims).reverse)
      ⟨lastOut c.initDim (inOut c.dims), H / 2 ^ ((inOut c.dims).length - 1),
        W / 2 ^ ((inOut c.dims).length - 1)⟩ (encStack (inOut c.dims) H W) =
      .ok (⟨c.initDim, H, W⟩, []) := by
    rw [hdec]
    simp
  have hfin : (do
      let sc ← concatS ⟨c.initDim, H, W⟩ ⟨c.initDim, H, W⟩
      let s4 ← resnetS (c.dim * 2) c.dim sc
      convS c.dim c.outDim s4 : Except UErr Shape) = .ok ⟨c.outDim, H, W⟩ := by
    simp [concatS, resnetS, convS, Bind.bind, Except.bind, hiD, mul_two]
  simp only [unetPipeline, hconv, henc, hmidDo, hdec', hfin]

/-! ### Small facts about the stage list of a configuration -/

lemma inOut_dims_ne (c : UnetCfg) (hne : c.dim_mults ≠ []) : inOut c.dims ≠ [] := by
  show inOut (c.initDim :: c.dim_mults.map (c.dim * ·)) ≠ []
  cases hmm : c.dim_mults with
  | nil => exact absurd hmm hne
  | cons a l => simp [inOut, hmm]

lemma inOut_dims_pred_len (c : UnetCfg) :
    (inOut c.dims).length - 1 = c.dim_mults.length - 1 := by
  show (inOut (c.initDim :: c.dim_mults.map (c.dim * ·))).length - 1 = _
  rw [inOut_length, List.length_map]

lemma chainFrom_dims (c : UnetCfg) : chainFrom c.initDim (inOut c.dims) :=
  chainFrom_inOut c.initDim (c.dim_mults.map (c.dim * ·))

/-- Claim C7: for every stage configuration whose input satisfies the
divisibility precondition, the encoder pass pushes exactly two feature maps
per stage (so `2 * number of stages` in total), the decoder pass consumes the
stack without ever popping an empty stack (it succeeds, so no underflow error
occurs), and it ends with the skip stack exactly empty. -/
theorem claim_C7_skip_stack_balance (c : UnetCfg) (H W : Nat)
    (hne : c.dim_mults ≠ [])
    (hH : H % c.downsampleFactor = 0) (hW : W % c.downsampleFactor = 0) :
    ∃ sEnc sDec,
      encode (markLast .conv (inOut c.dims)) ⟨c.initDim, H, W⟩ [] =
        .ok (sEnc, encStack (inOut c.dims) H W) ∧
      (encStack (inOut c.dims) H W).length = 2 * (inOut c.dims).length ∧
      decode (markLast .conv (inOut c.dims).reverse) sEnc (encStack (inOut c.dims) H W) =
        .ok (sDec, []) := by
  have hHd : 2 ^ ((inOut c.dims).length - 1) ∣ H := by
    rw [inOut_dims_pred_len]
    exact Nat.dvd_iff_mod_eq_zero.mpr hH
  have hWd : 2 ^ ((inOut c.dims).length - 1) ∣ W := by
    rw [inOut_dims_pred_len]
    exact Nat.dvd_iff_mod_eq_zero.mpr hW
  have henc := encode_ok (inOut c.dims) c.initDim H W []
    (chainFrom_dims c) (inOut_dims_ne c hne) hHd hWd
  have hdec := decode_ok (inOut c.dims) c.initDim H W [] .conv
    (chainFrom_dims c) (inOut_dims_ne c hne) hHd hWd
  rw [List.append_nil] at henc hdec
  refine ⟨_, ⟨c.initDim, H, W⟩, henc, encStack_length _ _ _, ?_⟩
  rw [hdec]
  simp

/-- Witness for claim C7 on a three-stage configuration with a 8 x 16 input. -/
theorem claim_C7_witness :
    ∃ sEnc sDec,
      encode (markLast .conv (inOut (UnetCfg.dims ⟨2, [1, 2, 2], 3, none, none, none⟩)))
          ⟨UnetCfg.initDim ⟨2, [1, 2, 2], 3, none, none, none⟩, 8, 16⟩ [] =
        .ok (sEnc, encStack (inOut (UnetCfg.dims ⟨2, [1, 2, 2], 3, none, none, none⟩)) 8 16) ∧
      (encStack (inOut (UnetCfg.dims ⟨2, [1, 2, 2], 3, none, none, none⟩)) 8 16).length =
        2 * (inOut (UnetCfg.dims ⟨2, [1, 2, 2], 3, none, none, none⟩)).length ∧
      decode (markLast .conv (inOut (UnetCfg.dims ⟨2, [1, 2, 2], 3, none, none, none⟩)).reverse)
          sEnc (encStack (inOut (UnetCfg.dims ⟨2, [1, 2, 2], 3, none, none, none⟩)) 8 16) =
        .ok (sDec, []) :=
  claim_C7_skip_stack_balance ⟨2, [1, 2, 2], 3, none, none, none⟩ 8 16
    (by decide) (by decide) (by decide)

/-- Claim C4, counterexample to the claim as stated: on a conditional
two-stage network and an input with an odd height, the forward call does fail
with the dimension-mismatch error, but the class-embedding computation (an
embedding lookup and the conditioning MLP) has already run before the check,
so the recorded trace before the failure is not empty. -/
theorem claim_C4_counterexample :
    Unet.forward unetW2 actsW ⟨[], []⟩ 1 ⟨1, 3, 4⟩ (some ⟨[1], [0]⟩) (some 0) =
      ([UEvent.classEmbLookup, UEvent.classesMlp], .error .dimensionMismatch) ∧
    ([UEvent.classEmbLookup, UEvent.classesMlp] : List UEvent) ≠ [] ∧
    UEvent.classEmbLookup ∈ ([UEvent.classEmbLookup, UEvent.classesMlp] : List UEvent) :=
  ⟨rfl, by decide, by decide⟩

/-- Claim C4, amended: an input whose height or width is not divisible by
`2 ^ (stages - 1)` fails with the dimension-mismatch error, and only
conditioning-block work (class-embedding lookup and conditioning MLP, in a
conditional network) precedes the failure — no image layer, initial
projection or time embedding runs; divisible inputs pass the check and (for a
valid configuration and matching channel count) evaluate successfully. -/
theorem claim_C4_divisibility (c : UnetCfg) (acts : Acts) (rng : Rng) (batch : Nat)
    (xc xh xw : Nat) (cond : Option LabelTensor) (cdp : Option ℚ)
    (hok : condInputOk cond = true)
    (hlen : ∀ ct, cond = some ct → ct.flat.length = batch) :
    (¬(xh % c.downsampleFactor = 0 ∧ xw % c.downsampleFactor = 0) →
      (Unet.forward c acts rng batch ⟨xc, xh, xw⟩ cond cdp).2 = .error .dimensionMismatch ∧
      ∀ e ∈ (Unet.forward c acts rng batch ⟨xc, xh, xw⟩ cond cdp).1, e.isCond = true) ∧
    (c.dim_mults ≠ [] → c.initDim = c.dim → xc = c.channels →
      xh % c.downsampleFactor = 0 → xw % c.downsampleFactor = 0 →
      (Unet.forward c acts rng batch ⟨xc, xh, xw⟩ cond cdp).2 = .ok ⟨c.outDim, xh, xw⟩) := by
  obtain ⟨cm, rng', h2, hev, _⟩ := condHandle_spec c.cond acts rng batch cond cdp hok hlen
  constructor
  · intro hbad
    simp only [Unet.forward, h2]
    rw [if_neg hbad]
    exact ⟨rfl, hev⟩
  · intro hmne hiD hxc hH hW
    subst hxc
    simp only [Unet.forward, h2]
    rw [if_pos ⟨hH, hW⟩, unetPipeline_ok c xh xw hmne hiD hH hW]

/-- Witness for the amended claim C4: a 3 x 4 input on the two-stage fixture
fails the check, and a 4 x 4 input runs to completion. -/
theorem claim_C4_witness :
    ((Unet.forward unetW2 actsW ⟨[], []⟩ 1 ⟨1, 3, 4⟩ (some ⟨[1], [0]⟩) (some 0)).2 =
        .error .dimensionMismatch ∧
      ∀ e ∈ (Unet.forward unetW2 actsW ⟨[], []⟩ 1 ⟨1, 3, 4⟩ (some ⟨[1], [0]⟩) (some 0)).1,
        e.isCond = true) ∧
    (Unet.forward unetW2 actsW ⟨[], []⟩ 1 ⟨1, 4, 4⟩ (some ⟨[1], [0]⟩) (some 0)).2 =
      .ok ⟨1, 4, 4⟩ :=
  ⟨(claim_C4_divisibility unetW2 actsW ⟨[], []⟩ 1 1 3 4 (some ⟨[1], [0]⟩) (some 0) rfl
      (fun ct hct => by cases hct; rfl)).1 (by decide),
    (claim_C4_divisibility unetW2 actsW ⟨[], []⟩ 1 1 4 4 (some ⟨[1], [0]⟩) (some 0) rfl
      (fun ct hct => by cases hct; rfl)).2 (by decide) rfl rfl (by decide) (by decide)⟩

/-! ### Length bookkeeping through the `LinearNetwork` blocks -/

lemma linearWF_elim {l : LinearP} {n : Nat} (h : linearWF l n = true) :
    l.weight.length = n ∧ l.bias.length = n := by
  simpa [linearWF] using h

lemma LinearP.apply_length {l : LinearP} {n : Nat} (h : linearWF l n = true) (x : Vec) :
    (l.apply x).length = n := by
  obtain ⟨hw, hb⟩ := linearWF_elim h
  simp [LinearP.apply, hw, hb]

lemma layerNorm_length {acts : Acts} {ln : LayerNormP} {x : Vec} {n : Nat}
    (hg : ln.gamma.length = n) (hb : ln.beta.length = n) (hx : x.length = n) :
    (layerNorm acts ln x).length = n := by
  simp [layerNorm, hg, hb, hx]

lemma dropoutV_length (p : ℚ) (rng : Rng) (x : Vec) :
    (dropoutV p rng x).1.length = x.length := by
  unfold dropoutV
  split
  · rfl
  · simp [Rng.takeUnifs]

lemma linBlockApply_none_length (acts : Acts) {bp : LinBlockP} {n : Nat}
    (hwf : linBlockWF n bp = true) (rng : Rng) (x : Vec) :
    (linBlockApply acts bp rng x none).1.length = n := by
  obtain ⟨⟨hp, hg⟩, hb⟩ : (linearWF bp.proj n = true ∧ bp.norm.gamma.length = n) ∧
      bp.norm.beta.length = n := by
    simpa [linBlockWF, Bool.and_eq_true] using hwf
  unfold linBlockApply
  rw [dropoutV_length]
  simp [layerNorm, LinearP.apply_length hp, hg, hb]

lemma linResApply_length {acts : Acts} {rp : LinResP} {rng : Rng} {x : Vec}
    {tE cE : Option Vec} {iD oD : Nat} (hwf : linResWF iD oD rp = true)
    (hx : x.length = iD) :
    (linResApply acts rp rng x tE cE).1.length = oD := by
  have hw : linearWF rp.mlp (2 * oD) = true ∧ linBlockWF oD rp.block1 = true ∧
      linBlockWF oD rp.block2 = true ∧
      (match rp.res_proj with
       | none => iD == oD
       | some l => linearWF l oD) = true := by
    have h' := hwf
    unfold linResWF at h'
    simp only [Bool.and_eq_true] at h'
    exact ⟨h'.1.1.1, h'.1.1.2, h'.1.2, h'.2⟩
  simp only [linResApply, vadd, List.length_zipWith, linBlockApply_none_length acts hw.2.2.1]
  rcases hres : rp.res_proj with _ | l
  · have hio : iD = oD := by
      have h' := hw.2.2.2
      rw [hres] at h'
      simpa using h'
    simp only [hres]
    omega
  · have hl : linearWF l oD = true := by
      have h' := hw.2.2.2
      rwa [hres] at h'
    simp only [hres]
    rw [LinearP.apply_length hl]
    omega

lemma blockRows_spec (acts : Acts) (rp : LinResP) {iD oD : Nat}
    (hwf : linResWF iD oD rp = true) :
    ∀ (rows : List (Vec × Vec × Option Vec)) (rng : Rng),
      (∀ r ∈ rows, r.1.length = iD) →
      (blockRows acts rp rows rng).1.length = rows.length ∧
      ∀ y ∈ (blockRows acts rp rows rng).1, y.length = oD := by
  intro rows
  induction rows with
  | nil => intro rng _; exact ⟨rfl, by simp [blockRows]⟩
  | cons r rest ih =>
    intro rng hr
    obtain ⟨x, tE, cE⟩ := r
    have hx : x.length = iD := hr (x, tE, cE) (by simp)
    have hrest := ih (linResApply acts rp rng x tE cE).2
      (fun r hr' => hr r (List.mem_cons_of_mem _ hr'))
    constructor
    · simp [blockRows, hrest.1]
    · intro y hy
      simp only [blockRows, List.mem_cons] at hy
      rcases hy with rfl | hy
      · exact linResApply_length hwf hx
      · exact hrest.2 y hy

lemma rows3_length {xs tE : Mat} {c : Option Mat} {b : Nat}
    (hx : xs.length = b) (ht : tE.length = b) (hc : ∀ m, c = some m → m.length = b) :
    (rows3 xs tE c).length = b := by
  cases hcc : c with
  | none => simp [rows3, hx, ht]
  | some m => simp [rows3, hx, ht, hc m hcc]

lemma rows3_fst_length {xs tE : Mat} {c : Option Mat} {iD : Nat}
    (hx : ∀ r ∈ xs, r.length = iD) :
    ∀ r ∈ rows3 xs tE c, r.1.length = iD := by
  intro r hr
  cases c with
  | none =>
    simp only [rows3, List.mem_map] at hr
    obtain ⟨p, hp, rfl⟩ := hr
    exact hx _ (List.of_mem_zip hp).1
  | some m =>
    simp only [rows3, List.mem_map] at hr
    obtain ⟨p, hp, rfl⟩ := hr
    exact hx _ (List.of_mem_zip hp).1

lemma foldBlocks_spec (acts : Acts) :
    ∀ (bs : List LinResP) (ds : List Nat) (iD : Nat) (xs tE : Mat) (c : Option Mat)
      (rng : Rng) (b : Nat),
      blocksWF iD ds bs = true → xs.length = b → (∀ r ∈ xs, r.length = iD) →
      tE.length = b → (∀ m, c = some m → m.length = b) →
      (foldBlocks acts bs xs tE c rng).1.length = b ∧
      ∀ r ∈ (foldBlocks acts bs xs tE c rng).1, r.length = ds.getLastD iD := by
  intro bs
  induction bs with
  | nil =>
    intro ds iD xs tE c rng b hwf hx hr _ _
    cases ds with
    | nil => exact ⟨hx, by simpa [foldBlocks] using hr⟩
    | cons d ds => simp [blocksWF] at hwf
  | cons rp rps ih =>
    intro ds iD xs tE c rng b hwf hx hr ht hc
    cases ds with
    | nil => simp [blocksWF] at hwf
    | cons oD ds =>
      have hwf' : linResWF iD oD rp = true ∧ blocksWF oD ds rps = true := by
        simpa [blocksWF, Bool.and_eq_true] using hwf
      have hrows := blockRows_spec acts rp hwf'.1 (rows3 xs tE c) rng
        (rows3_fst_length hr)
      have hlen : (blockRows acts rp (rows3 xs tE c) rng).1.length = b := by
        rw [hrows.1, rows3_length hx ht hc]
      have hmain := ih ds oD (blockRows acts rp (rows3 xs tE c) rng).1 tE c
        (blockRows acts rp (rows3 xs tE c) rng).2 b hwf'.2 hlen hrows.2 ht hc
      have hstep : foldBlocks acts (rp :: rps) xs tE c rng =
          foldBlocks acts rps (blockRows acts rp (rows3 xs tE c) rng).1 tE c
            (blockRows acts rp (rows3 xs tE c) rng).2 := rfl
      rw [hstep, List.getLastD_cons]
      exact hmain

lemma of_mem_zipWith_vadd {A B : Mat} {r : Vec} (hr : r ∈ List.zipWith vadd A B) :
    ∃ a ∈ A, ∃ b ∈ B, r = vadd a b := by
  induction A generalizing B with
  | nil => simp at hr
  | cons a A ih =>
    cases B with
    | nil => simp at hr
    | cons b B =>
      simp only [List.zipWith_cons_cons, List.mem_cons] at hr
      rcases hr with rfl | hr
      · exact ⟨a, by simp, b, by simp, rfl⟩
      · obtain ⟨a', ha, b', hb, rfl⟩ := ih hr
        exact ⟨a', by simp [ha], b', by simp [hb], rfl⟩

/-- Shape invariance of `LinearNetwork.forward`: on a well-formed parameter
set and a well-shaped input batch, the call succeeds and the output has
exactly the input's shape (same batch count, same feature width). -/
lemma linForward_shape (acts : Acts) (p : LinParams) (rng : Rng) (x : Mat)
    (time : Vec) (cond : Option LabelTensor) (cdp : Option ℚ)
    (hwf : p.wf = true)
    (hrows : ∀ r ∈ x, r.length = p.dim)
    (ht : time.length = 1 ∨ time.length = x.length)
    (hok : condInputOk cond = true)
    (hlen : ∀ ct, cond = some ct → ct.flat.length = x.length) :
    ∃ out rng', LinearNetwork.forward acts p rng x time cond cdp = .ok (out, rng') ∧
      out.length = x.length ∧ ∀ r ∈ out, r.length = p.dim := by
  obtain ⟨cm, rng1, h2, _, hcm⟩ := condHandle_spec p.cond acts rng x.length cond cdp hok hlen
  have hw : blocksWF p.dim p.hidden_dims p.blocks = true ∧
      linearWF p.final_proj p.dim = true := by
    simpa [LinParams.wf, Bool.and_eq_true] using hwf
  have htlen : ((if time.length = 1 then List.replicate x.length (time.headD 0)
      else time).map (timeEmbOf acts p)).length = x.length := by
    rw [List.length_map]
    split
    · simp
    · rcases ht with h1 | h1
      · omega
      · exact h1
  have hfold := foldBlocks_spec acts p.blocks p.hidden_dims p.dim x
    ((if time.length = 1 then List.replicate x.length (time.headD 0)
      else time).map (timeEmbOf acts p)) cm rng1 x.length hw.1 rfl hrows htlen hcm
  simp only [LinearNetwork.forward, h2]
  refine ⟨_, _, rfl, ?_, ?_⟩
  · rw [List.length_zipWith, List.length_map, hfold.1, Nat.min_self]
  · intro r hr
    obtain ⟨a, ha, b, hb, rfl⟩ := of_mem_zipWith_vadd hr
    simp only [List.mem_map] at ha
    obtain ⟨a', _, rfl⟩ := ha
    simp only [vadd, List.length_zipWith]
    rw [LinearP.apply_length hw.2, hrows b hb, Nat.min_self]

/-- Claim C1, counterexample to the claim as stated: a configuration with the
output-channel override `out_dim = 2` on single-channel data runs
successfully on a valid input and returns an output whose channel count (2)
differs from the input's (1), so the output shape does not equal the input
shape for every construction-time configuration. -/
theorem claim_C1_counterexample :
    Unet.forward unetWOut actsW ⟨[], []⟩ 1 ⟨1, 2, 2⟩ none none =
      ([.initConv, .timeEmbed, .encoderPass, .midPass, .decoderPass, .finalPass],
        .ok ⟨2, 2, 2⟩) ∧
    (⟨2, 2, 2⟩ : Shape) ≠ ⟨1, 2, 2⟩ :=
  ⟨rfl, by decide⟩

/-- Claim C1, amended: for every valid input the output shape equals the
input shape — unconditionally for the vector network, and for the image
network for every configuration whose `init_dim` and `out_dim` overrides are
left at their defaults (or equal `dim` and `channels` respectively); with an
explicit `out_dim` different from `channels` the image network instead
returns `out_dim` channels. -/
theorem claim_C1_shape :
    (∀ (acts : Acts) (p : LinParams) (rng : Rng) (x : Mat) (time : Vec)
        (cond : Option LabelTensor) (cdp : Option ℚ),
      p.wf = true → (∀ r ∈ x, r.length = p.dim) →
      (time.length = 1 ∨ time.length = x.length) →
      condInputOk cond = true → (∀ ct, cond = some ct → ct.flat.length = x.length) →
      ∃ out rng', LinearNetwork.forward acts p rng x time cond cdp = .ok (out, rng') ∧
        out.length = x.length ∧ ∀ r ∈ out, r.length = p.dim) ∧
    (∀ (c : UnetCfg) (acts : Acts) (rng : Rng) (batch H W : Nat)
        (cond : Option LabelTensor) (cdp : Option ℚ),
      c.dim_mults ≠ [] → c.initDim = c.dim → c.outDim = c.channels →
      condInputOk cond = true → (∀ ct, cond = some ct → ct.flat.length = batch) →
      H % c.downsampleFactor = 0 → W % c.downsampleFactor = 0 →
      (Unet.forward c acts rng batch ⟨c.channels, H, W⟩ cond cdp).2 =
        .ok ⟨c.channels, H, W⟩) := by
  constructor
  · exact fun acts p rng x time cond cdp h1 h2 h3 h4 h5 =>
      linForward_shape acts p rng x time cond cdp h1 h2 h3 h4 h5
  · intro c acts rng batch H W cond cdp hne hiD hout hok hlen hH hW
    obtain ⟨cm, rng', h2, -, -⟩ := condHandle_spec c.cond acts rng batch cond cdp hok hlen
    simp only [Unet.forward, h2]
    rw [if_pos ⟨hH, hW⟩, unetPipeline_ok c H W hne hiD hH hW, hout]

/-- Witness for the amended claim C1 on the fixture networks. -/
theorem claim_C1_witness :
    (∃ out rng', LinearNetwork.forward actsW linW ⟨[], []⟩ [[1], [2]] [0, 0] none none =
        .ok (out, rng') ∧ out.length = 2 ∧ ∀ r ∈ out, r.length = 1) ∧
    (Unet.forward unetW actsW ⟨[], []⟩ 1 ⟨1, 2, 2⟩ none none).2 = .ok ⟨1, 2, 2⟩ :=
  ⟨claim_C1_shape.1 actsW linW ⟨[], []⟩ [[1], [2]] [0, 0] none none (by decide)
      (by decide) (Or.inr rfl) rfl (fun ct h => Option.noConfusion h),
    claim_C1_shape.2 unetW actsW ⟨[], []⟩ 1 2 2 none none (by decide) rfl rfl rfl
      (fun ct h => Option.noConfusion h) (by decide) (by decide)⟩

end TorchBFN
